import Mathlib

/-!
Verification development for the mark-one property-scraper repository.

The Python sources are shallowly embedded: dictionaries become association
lists (`List (String × α)` with first-match lookup, keys unique in practice),
Python sets become lists used up to membership (`set()` loads dedup, `add`
appends when absent, `remove` filters), and fallible operations return
`Except`.  Each definition carries a comment naming the source function and
lines it embeds.
-/

/-! ## Association-list and set-as-list helpers -/

/-- First-match lookup in an association list; embeds `dict[key]` /
`key in dict` (Python dict keys are unique, so first-match agrees). -/
def lookupE {α : Type} : List (String × α) → String → Option α
  | [], _ => none
  | (k, v) :: rest, key => if k = key then some v else lookupE rest key

/-- `dict[key] = value`: replace the first binding of `key`, or append. -/
def setE {α : Type} : List (String × α) → String → α → List (String × α)
  | [], key, v => [(key, v)]
  | (k, w) :: rest, key, v =>
    if k = key then (k, v) :: rest else (k, w) :: setE rest key v

/-- `del dict[key]`. -/
def eraseE {α : Type} (l : List (String × α)) (key : String) : List (String × α) :=
  l.filter (fun e => e.1 ≠ key)

/-- `set.add`: append the element when it is not yet present. -/
def insertS (l : List String) (x : String) : List String :=
  if x ∈ l then l else l ++ [x]

/-- `set.remove` / `set.discard` on a duplicate-free list. -/
def removeS (l : List String) (x : String) : List String :=
  l.filter (fun y => y ≠ x)

/-! ## JSON-like values

The alias resolver (`src/src/ielove.py`) treats record values opaquely except
for the `is not None` test, so values are embedded as a small JSON-like type
with an explicit `null`. -/

inductive JVal where
  | null : JVal
  | str : String → JVal
  | num : Int → JVal
  | arr : List String → JVal
deriving DecidableEq, Repr

/-! ## IeloveDataFormatter (src/src/ielove.py)

`key_mappings` (lines 32-89) and `get_value_from_aliases` (lines 91-117),
transcribed from the source. -/

/-- `IeloveDataFormatter.key_mappings`, ielove.py lines 32-89, in source
(insertion) order. -/
def keyMappings : List (String × List String) :=
  [ ("ファイルパス", ["ファイルパス"]),
    ("その他交通", ["その他交通", "バス停", "バス停 徒歩"]),
    ("その他費用", ["その他費用", "その他費用月額"]),
    ("テラス面積", ["テラス面積", "バルコニー(テラス)面積", "物件情報.バルコニー面積"]),
    ("バルコニー方向", ["バルコニー方向", "向き"]),
    ("バルコニー面積", ["バルコニー面積", "物件情報.バルコニー面積"]),
    ("引渡時期", ["引渡時期", "引渡日", "入居可能時期"]),
    ("価格", ["価格", "金額", "販売価格", "賃料", "物件情報.価格", "物件情報.販売価格"]),
    ("画像", ["画像", "物件情報.画像"]),
    ("階建", ["階建", "階数", "構造・所在階", "物件情報.階建 / 所在階"]),
    ("管理会社", ["管理会社", "管理会社名", "分譲会社名"]),
    ("管理形態", ["管理形態", "物件情報.管理形態"]),
    ("管理人", ["管理人", "管理人状況"]),
    ("管理組合", ["管理組合", "管理組合有無"]),
    ("管理費", ["管理費", "管理費月額", "共益費", "物件情報.管理費"]),
    ("間取り", ["間取り", "部屋数・間取り", "物件情報.間取り"]),
    ("契約期間", ["契約期間"]),
    ("建築年月", ["建築年月", "築年月", "築年", "築年数", "物件情報.築年月"]),
    ("建物", ["建物"]),
    ("建物構造", ["建物構造", "構造", "物件情報.構造"]),
    ("建物名", ["建物名", "建物名・号室", "物件名", "物件名・部屋番号", "物件情報.物件名", "物件情報.物件名_詳細"]),
    ("現況", ["現況"]),
    ("交通", ["交通", "物件情報.交通"]),
    ("向き", ["向き", "バルコニー方向"]),
    ("更新料", ["更新料"]),
    ("構造・所在階", ["構造・所在階", "階建", "階数", "物件情報.階建 / 所在階"]),
    ("最寄り駅", ["最寄り駅", "交通", "物件情報.交通"]),
    ("最寄り駅 徒歩", ["最寄り駅 徒歩"]),
    ("施工会社名", ["施工会社名"]),
    ("事務所使用", ["事務所使用"]),
    ("修繕積立金", ["修繕積立金", "修繕積立金月額", "物件情報.修繕積立金"]),
    ("住所", ["住所", "所在地", "所在地名１", "所在地名２", "所在地名３", "物件情報.所在地"]),
    ("所在階", ["所在階", "構造・所在階", "物件情報.階建 / 所在階"]),
    ("設備", ["設備", "設備/構造/リフォーム", "設備・条件・住宅性能等"]),
    ("専有面積", ["専有面積", "面積", "物件情報.専有面積"]),
    ("専用庭面積", ["専用庭面積"]),
    ("総戸数", ["総戸数", "総戸(室)数"]),
    ("地下階層", ["地下階層", "地上階層"]),
    ("築年月", ["築年月", "築年", "築年数", "建築年月", "物件情報.築年月"]),
    ("駐車場", ["駐車場", "駐車場（月額）", "駐車場月額", "駐車場・駐輪場/庭", "駐車場在否"]),
    ("駐輪場", ["駐輪場"]),
    ("賃料", ["賃料", "価格", "金額", "販売価格"]),
    ("都道府県名", ["都道府県名"]),
    ("内装", ["内装"]),
    ("入居可能時期", ["入居可能時期", "引渡時期", "引渡日"]),
    ("販売価格", ["販売価格", "価格", "金額", "賃料", "物件情報.価格", "物件情報.販売価格"]),
    ("備考", ["備考", "物件情報.備考"]),
    ("敷金", ["敷金"]),
    ("部屋数・間取り", ["部屋数・間取り", "間取り", "物件情報.間取り"]),
    ("部屋番号", ["部屋番号"]),
    ("物件名", ["物件名", "物件名・部屋番号", "建物名", "建物名・号室", "物件情報.物件名", "物件情報.物件名_詳細"]),
    ("分譲会社名", ["分譲会社名", "管理会社", "管理会社名"]),
    ("面積", ["面積", "専有面積", "物件情報.専有面積"]),
    ("容積率", ["容積率"]),
    ("用途地域", ["用途地域", "用途地域1", "用途地域2"]),
    ("礼金", ["礼金"]) ]

/-- `key in data and data[key] is not None`: the hit test used by every step
of `get_value_from_aliases` (ielove.py lines 103-104, 108-110, 113-115). -/
def directHit (data : List (String × JVal)) (k : String) : Option JVal :=
  match lookupE data k with
  | some v => if v = JVal.null then none else some v
  | none => none

/-- The alias scan of step 2 (ielove.py lines 107-110): first alias present
in the record with a non-null value, in alias-list order. -/
def firstAliasHit (data : List (String × JVal)) : List String → Option JVal
  | [] => none
  | a :: rest =>
    match directHit data a with
    | some v => some v
    | none => firstAliasHit data rest

/-- Step 2 guard (ielove.py line 106): only consult the alias list when the
key is registered as a main key. -/
def aliasTableHit (data : List (String × JVal)) (key : String) : Option JVal :=
  match lookupE keyMappings key with
  | some aliases => firstAliasHit data aliases
  | none => none

/-- Step 3 (ielove.py lines 112-115): scan the table in insertion order for a
main key listing `key` among its aliases and present non-null in the record. -/
def reverseHit (data : List (String × JVal)) (key : String) :
    List (String × List String) → Option JVal
  | [] => none
  | (mainKey, aliases) :: rest =>
    match (if key ∈ aliases then directHit data mainKey else none) with
    | some v => some v
    | none => reverseHit data key rest

/-- `IeloveDataFormatter.get_value_from_aliases`, ielove.py lines 91-117. -/
def getValueFromAliases (data : List (String × JVal)) (key : String) : JVal :=
  match directHit data key with
  | some v => v
  | none =>
    match aliasTableHit data key with
    | some v => v
    | none =>
      match reverseHit data key keyMappings with
      | some v => v
      | none => JVal.str ""

/-- The spec's "is present in the record with a non-null value", for the key
itself, its configured aliases, or a main key listing it as an alias. -/
def specMatchedB (data : List (String × JVal)) (key : String) : Bool :=
  (directHit data key).isSome
  || ((lookupE keyMappings key).getD []).any (fun a => (directHit data a).isSome)
  || keyMappings.any (fun e => decide (key ∈ e.2) && (directHit data e.1).isSome)

/-! ## UpdatedPropertiesTracker (src/src/utils.py, lines 8-40)

`save_updated_properties` reads `data/updated.json`, appends the path when it
is absent, and writes the list back with `flush()` and `os.fsync`.  The state
of the log file on disk is embedded as `LogFile`; the outcome distinguishes a
normal return (the written file, with its flush/fsync marks) from a raised
exception.  `json.load` on an unparseable file raises, which the bare
`except` re-raises after logging (lines 38-40); only a file that parses to a
non-list is reset to `[]` (lines 23-25). -/

inductive LogFile where
  /-- `os.path.exists(updated_file)` is false. -/
  | absent : LogFile
  /-- The file exists but `json.load` raises (unparseable JSON). -/
  | invalidJson : LogFile
  /-- The file parses but `isinstance(existing_data, list)` is false. -/
  | notAList : LogFile
  /-- The file parses to a list of path strings. -/
  | entries : List String → LogFile
deriving DecidableEq, Repr

/-- The file content written back, with the durability calls recorded. -/
structure SavedLog where
  entries : List String
  flushed : Bool
  fsynced : Bool
deriving DecidableEq, Repr

/-- The `existing_data` local after lines 20-25, for the non-raising cases. -/
def loadLogEntries : LogFile → List String
  | LogFile.absent => []
  | LogFile.invalidJson => []
  | LogFile.notAList => []
  | LogFile.entries l => l

/-- `save_updated_properties`, utils.py lines 8-40. -/
def saveUpdatedProperties (file : LogFile) (updatedProperty : String) :
    Except String SavedLog :=
  match file with
  | LogFile.invalidJson => Except.error "json decode error"
  | f =>
    let existing := loadLogEntries f
    let existing := if updatedProperty ∈ existing then existing
                    else existing ++ [updatedProperty]
    Except.ok { entries := existing, flushed := true, fsynced := true }

/-! ## get_updated_property_paths (src/src/utils.py, lines 42-64)

Builds `set(property_history.get("updated", []))`, then for each id the path
`os.path.join(data_dir, f"{id}.json")`, keeping `os.path.abspath` of those
that exist.  The filesystem (`os.path.exists`) and `os.path.abspath` are
parameters of the embedding; `set()` iteration order is unspecified in
Python, so claims about the result are stated up to membership. -/

/-- The history JSON shared by the reins-style scrapers and consumed by
`get_updated_property_paths`: keys `processed`, `deleted`, `updated`,
`property_info` (reins.py lines 41-46). -/
structure ReinsHistory where
  processed : List String
  deleted : List String
  updated : List String
  property_info : List (String × (String × String))
deriving DecidableEq, Repr

/-- `get_updated_property_paths`, utils.py lines 42-64. -/
def getUpdatedPropertyPaths (h : ReinsHistory) (dataDir : String)
    (exStr : String → Bool) (absPath : String → String) : List String :=
  h.updated.dedup.filterMap (fun pid =>
    let f := dataDir ++ "/" ++ pid ++ ".json"
    if exStr f then some (absPath f) else none)

/-! ## ReinsScraper (src/src/reins.py)

The reconciliation core of `ReinsScraper.scrape`: per-search-type the history
is loaded and copied into the working sets (lines 365-368), each observed
property number is classified (lines 482-535), and after the loop the
end-of-pass sweep runs (lines 585-597).  `update_property_history`
(lines 128-130) persists `self.property_history` wholesale; `property_info`
is the same object as `self.property_history["property_info"]`, while the
list-valued keys are only reassigned at the explicit assignments in the
source. -/

structure ReinsPass where
  /-- `processed_ids = set(self.property_history["processed"])`, line 365. -/
  pids : List String
  /-- `deleted_ids = set(self.property_history["deleted"])`, line 366. -/
  dids : List String
  /-- `updated_ids = set(self.property_history["updated"])`, line 367. -/
  uids : List String
  /-- `property_info = self.property_history["property_info"]`, line 368
  (aliases the dict held by `self.property_history`). -/
  pinfo : List (String × (String × String))
  /-- `self.property_history["processed"]`. -/
  histProcessed : List String
  /-- `self.property_history["deleted"]`. -/
  histDeleted : List String
  /-- `self.property_history["updated"]`. -/
  histUpdated : List String
  /-- The persisted history file. -/
  file : ReinsHistory
deriving DecidableEq, Repr

/-- `self.update_property_history()`, reins.py lines 128-130: write
`self.property_history` to the history file. -/
def reinsSaveHistory (s : ReinsPass) : ReinsPass :=
  { s with file := ⟨s.histProcessed, s.histDeleted, s.histUpdated, s.pinfo⟩ }

/-- Pass start, reins.py lines 362-368: load the history file and copy its
lists into working sets (`set(...)` deduplicates). -/
def reinsInit (h : ReinsHistory) : ReinsPass :=
  { pids := h.processed.dedup
    dids := h.deleted.dedup
    uids := h.updated.dedup
    pinfo := h.property_info
    histProcessed := h.processed
    histDeleted := h.deleted
    histUpdated := h.updated
    file := h }

/-- The processed / changed / new classification for one observed property
number, reins.py lines 485-521.  `saved.1`/`saved.2` embed
`saved_info.get("変更年月日", "")` / `saved_info.get("更新年月日", "")`. -/
def reinsObserveClassify (s : ReinsPass) (pn cd ud : String) : ReinsPass :=
  if pn ∈ s.pids then
    if cd ≠ ((lookupE s.pinfo pn).getD ("", "")).1 ∨
        ud ≠ ((lookupE s.pinfo pn).getD ("", "")).2 then
      -- lines 496-507: markers differ (also removed from processed)
      reinsSaveHistory { s with
        uids := insertS s.uids pn
        pids := removeS s.pids pn
        pinfo := setE s.pinfo pn (cd, ud)
        histUpdated := insertS s.uids pn
        histProcessed := removeS s.pids pn }
    else s  -- lines 509-510: unchanged, skip
  else
    -- lines 511-521: new property (added to `updated` only, not `processed`)
    reinsSaveHistory { s with
      uids := insertS s.uids pn
      pinfo := setE s.pinfo pn (cd, ud)
      histUpdated := insertS s.uids pn }

/-- The resurrection check, reins.py lines 523-535, which runs for every
observed non-empty property number after the classification. -/
def reinsObserveResurrect (s1 : ReinsPass) (pn cd ud : String) : ReinsPass :=
  if pn ∈ s1.dids then
    reinsSaveHistory { s1 with
      dids := removeS s1.dids pn
      uids := insertS s1.uids pn
      pinfo := setE s1.pinfo pn (cd, ud)
      histDeleted := removeS s1.dids pn
      histUpdated := insertS s1.uids pn }
  else s1

/-- One observed detail page, reins.py lines 482-535: `pn` is
`detail_data.get("物件番号", "")`, `cd`/`ud` are
`detail_data.get("変更年月日", "")` / `detail_data.get("更新年月日", "")`. -/
def reinsObserve (s : ReinsPass) (pn cd ud : String) : ReinsPass :=
  if pn = "" then s
  else reinsObserveResurrect (reinsObserveClassify s pn cd ud) pn cd ud

/-- One iteration of the end-of-pass sweep, reins.py lines 587-597.  In the
source, `processed_ids.remove(old_id)` inside the branch would raise
`KeyError` exactly when `old_id ∉ processed_ids`, i.e. whenever the branch is
entered; the removal is embedded totally, which is observationally faithful
because the branch is unreachable from `reinsInit` (see the C1 theorem). -/
def reinsSweepStep (s : ReinsPass) (oldId : String) : ReinsPass :=
  if oldId ∈ s.pids then s
  else
    let dids' := insertS s.dids oldId
    let pids' := removeS s.pids oldId
    reinsSaveHistory { s with
      dids := dids', pids := pids',
      pinfo := eraseE s.pinfo oldId,
      histProcessed := pids', histDeleted := dids' }

/-- The end-of-pass sweep, reins.py lines 585-597:
`current_processed_ids = set(self.property_history["processed"])` is
snapshotted before the loop. -/
def reinsSweep (s : ReinsPass) : ReinsPass :=
  s.histProcessed.dedup.foldl reinsSweepStep s

/-- A whole reconciliation pass of `ReinsScraper.scrape` for one search type:
load, classify every observed `(物件番号, 変更年月日, 更新年月日)` triple in
order, then sweep. -/
def reinsPass (h : ReinsHistory) (obs : List (String × String × String)) : ReinsPass :=
  reinsSweep (obs.foldl (fun s o => reinsObserve s o.1 o.2.1 o.2.2) (reinsInit h))

/-- The bookkeeping relations `ReinsScraper.scrape` maintains between the
working sets and `self.property_history`: every mutation of a working set is
mirrored into the corresponding history key before the following
`update_property_history()` call, and the persisted file always equals the
in-memory history. -/
def ReinsInv (s : ReinsPass) : Prop :=
  (∀ x, x ∈ s.histProcessed ↔ x ∈ s.pids) ∧
  (∀ x, x ∈ s.histDeleted ↔ x ∈ s.dids) ∧
  (∀ x, x ∈ s.histUpdated ↔ x ∈ s.uids) ∧
  s.file = ⟨s.histProcessed, s.histDeleted, s.histUpdated, s.pinfo⟩

/-! ## MugenEstateScraper (src/src/mugen_estate.py)

`update_property_history` (lines 666-707): detect ids that left
`active_properties`, archive them into `deleted_properties` with a
`deleted_at` stamp, then replace `active_properties` wholesale with the
current listing; `save_property_history` (lines 622-664) then persists the
result (the returned history is exactly what is written). -/

/-- An entry of `active_properties` / `deleted_properties`. -/
structure MugenPropInfo where
  propertyName : String
  lastSeen : String
  price : Int
  roomNumber : String
  deletedAt : Option String
deriving DecidableEq, Repr

/-- One element of the `current_properties` argument (a scraped listing
dict); `property_id` may be absent (`if "property_id" in p`). -/
structure MugenListing where
  propertyId : Option String
  propertyName : String
  price : Int
  roomNumber : String
deriving DecidableEq, Repr

structure MugenHistory where
  active : List (String × MugenPropInfo)
  deleted : List (String × MugenPropInfo)
  processed : List String
deriving DecidableEq, Repr

/-- The ids carried by the current listings. -/
def listingIds (cur : List MugenListing) : List String :=
  cur.filterMap (fun p => p.propertyId)

/-- The `current_property_ids` dict comprehension, mugen_estate.py
lines 671-676 (`datetime.now()` is the `now` parameter). -/
def mugenCurrentIds (cur : List MugenListing) (now : String) :
    List (String × MugenPropInfo) :=
  cur.foldl (fun acc p =>
    match p.propertyId with
    | some pid => setE acc pid
        ⟨p.propertyName, now, p.price, p.roomNumber, none⟩
    | none => acc) []

/-- `MugenEstateScraper.update_property_history`, mugen_estate.py
lines 666-707 (the history it leaves in `self.property_history` and hands to
`save_property_history`). -/
def mugenUpdatePropertyHistory (h : MugenHistory) (cur : List MugenListing)
    (now : String) : MugenHistory :=
  let currentIds := mugenCurrentIds cur now
  -- lines 682-692: move ids that disappeared from active into deleted
  let newDeleted := h.active.foldl (fun acc e =>
    if (lookupE currentIds e.1).isSome then acc
    else setE acc e.1 { e.2 with deletedAt := some now }) h.deleted
  -- line 696: active_properties is replaced by the current ids
  { active := currentIds, deleted := newDeleted, processed := h.processed }

/-- `active ∩ deleted = ∅` as a decidable check on association lists. -/
def disjointKeys {α β : Type} (l1 : List (String × α)) (l2 : List (String × β)) : Bool :=
  l1.all (fun e => (lookupE l2 e.1).isNone)

/-! ## JpmScraper (src/src/jpm.py)

`mark_property_as_processed` (lines 114-129) and `mark_property_as_deleted`
(lines 131-145) on the same active/deleted/processed history shape. -/

structure JpmHistory where
  active : List (String × MugenPropInfo)
  deleted : List (String × MugenPropInfo)
  processed : List String
deriving DecidableEq, Repr

/-- `JpmScraper.mark_property_as_processed`, jpm.py lines 114-129: add to
`processed_properties`, overwrite the `active_properties` entry, save.  The
`deleted_properties` dict is not touched. -/
def jpmMarkPropertyAsProcessed (h : JpmHistory) (pid : String)
    (propertyName now : String) : JpmHistory :=
  { h with
    processed := insertS h.processed pid
    active := setE h.active pid ⟨propertyName, now, 0, "", none⟩ }

/-- `JpmScraper.mark_property_as_deleted`, jpm.py lines 131-145: when active,
copy the entry into `deleted_properties` with a `deleted_at` stamp and delete
it from `active_properties`; otherwise do nothing. -/
def jpmMarkPropertyAsDeleted (h : JpmHistory) (pid : String) (now : String) : JpmHistory :=
  match lookupE h.active pid with
  | some inf =>
    { h with
      deleted := setE h.deleted pid { inf with deletedAt := some now }
      active := eraseE h.active pid }
  | none => h

/-! ## History-save failure behaviour (C8)

Both saves serialize `self.property_history` and write it; the embedding
abstracts the file write as its outcome `write : Except String Unit`. -/

/-- `MugenEstateScraper.save_property_history`, mugen_estate.py
lines 622-664: the `except` clause logs and then `raise`s, so a write
failure propagates to the caller. -/
def mugenSavePropertyHistory (write : Except String Unit) : Except String Unit :=
  match write with
  | Except.ok _ => Except.ok ()
  | Except.error e => Except.error e

/-- `FstageScraper._save_property_history`, fstage.py lines 633-658: the
`except` clause logs and returns `False`, so the call returns normally on a
write failure. -/
def fstageSavePropertyHistory (write : Except String Unit) : Except String Bool :=
  match write with
  | Except.ok _ => Except.ok true
  | Except.error _ => Except.ok false

/-! ## ArchScraper (src/src/arch.py)

`__init__` (lines 16-35) loads `property_history.json` into
`self.history_data` but initializes `self.processed_ids` and
`self.deleted_ids` to empty sets; `update_history` (lines 37-47) overwrites
the `processed`/`deleted` keys of `history_data` with those in-memory sets
and persists the result. -/

structure ArchHistory where
  processed : List String
  deleted : List String
deriving DecidableEq, Repr

structure ArchState where
  /-- `self.processed_ids`, arch.py line 27. -/
  processed_ids : List String
  /-- `self.deleted_ids`, arch.py line 28. -/
  deleted_ids : List String
  /-- `self.history_data`, arch.py lines 31-35. -/
  history_data : ArchHistory
  /-- The persisted `property_history.json` (`none` when absent). -/
  file : Option ArchHistory
deriving DecidableEq, Repr

/-- `ArchScraper.__init__`, arch.py lines 26-35: the in-memory id sets start
empty even when a history file was loaded. -/
def archInit (loaded : Option ArchHistory) : ArchState :=
  { processed_ids := []
    deleted_ids := []
    history_data := loaded.getD ⟨[], []⟩
    file := loaded }

/-- `ArchScraper.update_history`, arch.py lines 37-47. -/
def archUpdateHistory (s : ArchState) (pid : String) (isDeleted : Bool) : ArchState :=
  let processed' := if isDeleted then s.processed_ids else insertS s.processed_ids pid
  let deleted' := if isDeleted then insertS s.deleted_ids pid else s.deleted_ids
  let hist : ArchHistory := ⟨processed', deleted'⟩
  { processed_ids := processed', deleted_ids := deleted'
    history_data := hist, file := some hist }

/-! ## Lemma library for the helpers -/

theorem lookupE_setE_self {α : Type} (l : List (String × α)) (k : String) (v : α) :
    lookupE (setE l k v) k = some v := by
  induction l with
  | nil => simp [setE, lookupE]
  | cons e rest ih =>
    by_cases h : e.1 = k
    · simp [setE, h, lookupE]
    · simp [setE, h, lookupE, ih]

theorem lookupE_setE_ne {α : Type} (l : List (String × α)) (k k' : String) (v : α)
    (h : k ≠ k') : lookupE (setE l k v) k' = lookupE l k' := by
  induction l with
  | nil => simp [setE, lookupE, h]
  | cons e rest ih =>
    by_cases he : e.1 = k
    · simp [setE, he, lookupE, h]
    · simp only [setE, if_neg he]
      by_cases he' : e.1 = k'
      · simp [lookupE, he']
      · simp [lookupE, he', ih]

theorem lookupE_setE_isSome {α : Type} (l : List (String × α)) (k k' : String) (v : α)
    (h : (lookupE l k').isSome) : (lookupE (setE l k v) k').isSome := by
  by_cases hk : k = k'
  · subst hk; simp [lookupE_setE_self]
  · rwa [lookupE_setE_ne l k k' v hk]

theorem mem_insertS (l : List String) (x y : String) :
    y ∈ insertS l x ↔ y ∈ l ∨ y = x := by
  unfold insertS
  by_cases h : x ∈ l
  · simp only [if_pos h]
    constructor
    · exact Or.inl
    · rintro (hy | rfl)
      · exact hy
      · exact h
  · simp [if_neg h]

theorem self_mem_insertS (l : List String) (x : String) : x ∈ insertS l x := by
  rw [mem_insertS]; exact Or.inr rfl

theorem mem_removeS (l : List String) (x y : String) :
    y ∈ removeS l x ↔ y ∈ l ∧ y ≠ x := by
  simp [removeS]

theorem not_mem_removeS_self (l : List String) (x : String) : x ∉ removeS l x := by
  rw [mem_removeS]; rintro ⟨-, h⟩; exact h rfl

/-! ## Lemmas about the alias resolver -/

theorem isSome_eq_false_iff {α : Type} (o : Option α) : o.isSome = false ↔ o = none := by
  cases o <;> simp

theorem directHit_spec {data : List (String × JVal)} {k : String} {v : JVal}
    (h : directHit data k = some v) : lookupE data k = some v ∧ v ≠ JVal.null := by
  unfold directHit at h
  cases hl : lookupE data k with
  | none => simp only [hl] at h; cases h
  | some w =>
    simp only [hl] at h
    by_cases hw : w = JVal.null
    · rw [if_pos hw] at h; cases h
    · rw [if_neg hw] at h
      obtain rfl := Option.some.inj h
      exact ⟨rfl, hw⟩

theorem firstAliasHit_none_iff (data : List (String × JVal)) (as : List String) :
    firstAliasHit data as = none ↔ ∀ a ∈ as, directHit data a = none := by
  induction as with
  | nil => simp [firstAliasHit]
  | cons a rest ih =>
    cases h : directHit data a with
    | none =>
      simp only [firstAliasHit, h]
      rw [ih]
      constructor
      · intro hall b hb
        rcases List.mem_cons.mp hb with rfl | hb
        · exact h
        · exact hall b hb
      · intro hall b hb
        exact hall b (List.mem_cons_of_mem a hb)
    | some v =>
      simp only [firstAliasHit, h]
      constructor
      · intro hfalse; cases hfalse
      · intro hall
        have := hall a (List.mem_cons_self a rest)
        rw [h] at this; cases this

theorem firstAliasHit_some {data : List (String × JVal)} {as : List String} {v : JVal}
    (h : firstAliasHit data as = some v) : ∃ a ∈ as, directHit data a = some v := by
  induction as with
  | nil => cases h
  | cons a rest ih =>
    cases ha : directHit data a with
    | none =>
      simp only [firstAliasHit, ha] at h
      obtain ⟨b, hb, hbd⟩ := ih h
      exact ⟨b, List.mem_cons_of_mem a hb, hbd⟩
    | some w =>
      simp only [firstAliasHit, ha] at h
      obtain rfl := Option.some.inj h
      exact ⟨a, List.mem_cons_self a rest, ha⟩

theorem reverseHit_none_iff (data : List (String × JVal)) (key : String)
    (ms : List (String × List String)) :
    reverseHit data key ms = none ↔
      ∀ e ∈ ms, key ∈ e.2 → directHit data e.1 = none := by
  induction ms with
  | nil => simp [reverseHit]
  | cons e rest ih =>
    obtain ⟨mk, als⟩ := e
    by_cases hk : key ∈ als
    · cases hd : directHit data mk with
      | none =>
        simp only [reverseHit, if_pos hk, hd]
        rw [ih]
        constructor
        · intro hall f hf hkf
          rcases List.mem_cons.mp hf with rfl | hf
          · exact hd
          · exact hall f hf hkf
        · intro hall f hf hkf
          exact hall f (List.mem_cons_of_mem _ hf) hkf
      | some v =>
        simp only [reverseHit, if_pos hk, hd]
        constructor
        · intro hfalse; cases hfalse
        · intro hall
          have := hall (mk, als) (List.mem_cons_self _ rest) hk
          rw [hd] at this; cases this
    · simp only [reverseHit, if_neg hk]
      rw [ih]
      constructor
      · intro hall f hf hkf
        rcases List.mem_cons.mp hf with rfl | hf
        · exact absurd hkf hk
        · exact hall f hf hkf
      · intro hall f hf hkf
        exact hall f (List.mem_cons_of_mem _ hf) hkf

theorem reverseHit_some {data : List (String × JVal)} {key : String}
    {ms : List (String × List String)} {v : JVal}
    (h : reverseHit data key ms = some v) :
    ∃ e ∈ ms, key ∈ e.2 ∧ directHit data e.1 = some v := by
  induction ms with
  | nil => cases h
  | cons e rest ih =>
    obtain ⟨mk, als⟩ := e
    by_cases hk : key ∈ als
    · cases hd : directHit data mk with
      | none =>
        simp only [reverseHit, if_pos hk, hd] at h
        obtain ⟨f, hf, hfk, hfd⟩ := ih h
        exact ⟨f, List.mem_cons_of_mem _ hf, hfk, hfd⟩
      | some w =>
        simp only [reverseHit, if_pos hk, hd] at h
        obtain rfl := Option.some.inj h
        exact ⟨(mk, als), List.mem_cons_self _ rest, hk, hd⟩
    · simp only [reverseHit, if_neg hk] at h
      obtain ⟨f, hf, hfk, hfd⟩ := ih h
      exact ⟨f, List.mem_cons_of_mem _ hf, hfk, hfd⟩

theorem aliasAny_eq_false_iff (data : List (String × JVal)) (key : String) :
    (((lookupE keyMappings key).getD []).any
        (fun a => (directHit data a).isSome)) = false ↔
      aliasTableHit data key = none := by
  unfold aliasTableHit
  cases hm : lookupE keyMappings key with
  | none => simp
  | some as =>
    simp only [Option.getD_some]
    rw [List.any_eq_false, firstAliasHit_none_iff]
    constructor
    · intro h a ha
      have := h a ha
      exact Option.not_isSome_iff_eq_none.mp (by simpa using this)
    · intro h a ha
      simp [h a ha]

theorem revAny_eq_false_iff (data : List (String × JVal)) (key : String) :
    (keyMappings.any
        (fun e => decide (key ∈ e.2) && (directHit data e.1).isSome)) = false ↔
      reverseHit data key keyMappings = none := by
  rw [List.any_eq_false, reverseHit_none_iff]
  constructor
  · intro h e he hke
    have := h e he
    simp only [decide_eq_true hke, Bool.true_and] at this
    exact Option.not_isSome_iff_eq_none.mp (by simpa using this)
  · intro h e he
    by_cases hke : key ∈ e.2
    · simp [hke, h e he hke]
    · simp [hke]

theorem specMatchedB_eq_false_iff (data : List (String × JVal)) (key : String) :
    specMatchedB data key = false ↔
      directHit data key = none ∧ aliasTableHit data key = none ∧
        reverseHit data key keyMappings = none := by
  unfold specMatchedB
  rw [Bool.or_eq_false_iff, Bool.or_eq_false_iff, isSome_eq_false_iff,
    aliasAny_eq_false_iff, revAny_eq_false_iff]
  tauto

theorem aliasTableHit_some {data : List (String × JVal)} {key : String} {v : JVal}
    (h : aliasTableHit data key = some v) :
    ∃ a ∈ (lookupE keyMappings key).getD [], directHit data a = some v := by
  unfold aliasTableHit at h
  cases hm : lookupE keyMappings key with
  | none => rw [hm] at h; cases h
  | some as =>
    rw [hm] at h
    simpa [hm] using firstAliasHit_some h

theorem getValueFromAliases_cases (data : List (String × JVal)) (key : String) :
    (∃ v, getValueFromAliases data key = v ∧
       (directHit data key = some v ∨ aliasTableHit data key = some v ∨
        reverseHit data key keyMappings = some v)) ∨
    (getValueFromAliases data key = JVal.str "" ∧ directHit data key = none ∧
       aliasTableHit data key = none ∧ reverseHit data key keyMappings = none) := by
  unfold getValueFromAliases
  cases hd : directHit data key with
  | some v => exact Or.inl ⟨v, rfl, Or.inl rfl⟩
  | none =>
    cases ha : aliasTableHit data key with
    | some v => exact Or.inl ⟨v, rfl, Or.inr (Or.inl rfl)⟩
    | none =>
      cases hr : reverseHit data key keyMappings with
      | some v => exact Or.inl ⟨v, rfl, Or.inr (Or.inr rfl)⟩
      | none => exact Or.inr ⟨rfl, rfl, rfl, rfl⟩

/-! ## Claim C5 -/

/-- C5: for every raw record carrying both "価格" (value `v1`, non-null) and
"販売価格" (value `v2`, non-null) with `v1 ≠ v2`,
`get_value_from_aliases(record, "価格")` returns `v1` (the direct hit), and
`get_value_from_aliases(record, "販売価格")` returns the value of the first
name of the configured alias list of "販売価格" that is present non-null in
the record — which is `v2`, since "販売価格" heads its own alias list. -/
theorem C5_alias_resolution_precedence (data : List (String × JVal)) (v1 v2 : JVal)
    (h1 : lookupE data "価格" = some v1) (h1n : v1 ≠ JVal.null)
    (h2 : lookupE data "販売価格" = some v2) (h2n : v2 ≠ JVal.null)
    (hne : v1 ≠ v2) :
    getValueFromAliases data "価格" = v1 ∧
    getValueFromAliases data "販売価格" = v2 ∧
    firstAliasHit data ((lookupE keyMappings "販売価格").getD []) = some v2 := by
  have hd1 : directHit data "価格" = some v1 := by
    simp only [directHit, h1]; rw [if_neg h1n]
  have hd2 : directHit data "販売価格" = some v2 := by
    simp only [directHit, h2]; rw [if_neg h2n]
  have hmap : lookupE keyMappings "販売価格" =
      some ["販売価格", "価格", "金額", "賃料", "物件情報.価格", "物件情報.販売価格"] := by
    decide
  refine ⟨?_, ?_, ?_⟩
  · simp only [getValueFromAliases, hd1]
  · simp only [getValueFromAliases, hd2]
  · rw [hmap]
    simp only [Option.getD_some, firstAliasHit, hd2]

/-- Witness for C5 at a concrete record holding both keys with distinct
non-null values. -/
theorem C5_alias_resolution_precedence_witness :
    getValueFromAliases
        [("価格", JVal.str "1000万円"), ("販売価格", JVal.str "2000万円")] "価格"
      = JVal.str "1000万円" ∧
    getValueFromAliases
        [("価格", JVal.str "1000万円"), ("販売価格", JVal.str "2000万円")] "販売価格"
      = JVal.str "2000万円" ∧
    firstAliasHit [("価格", JVal.str "1000万円"), ("販売価格", JVal.str "2000万円")]
        ((lookupE keyMappings "販売価格").getD [])
      = some (JVal.str "2000万円") :=
  C5_alias_resolution_precedence
    [("価格", JVal.str "1000万円"), ("販売価格", JVal.str "2000万円")]
    (JVal.str "1000万円") (JVal.str "2000万円")
    (by decide) (by decide) (by decide) (by decide) (by decide)

/-! ## Claim C6 -/

/-- C6 counterexample: the claim's "returns the empty string exactly when no
name matches" fails in the only-if direction.  On the record
`{"価格": ""}` the key "価格" is present with the non-null value `""`
(so the claim demands a non-empty-string result), yet the function returns
`""` because the matched value itself is the empty string. -/
theorem C6_counterexample :
    getValueFromAliases [("価格", JVal.str "")] "価格" = JVal.str "" ∧
    ¬ specMatchedB [("価格", JVal.str "")] "価格" = false := by
  exact ⟨by decide, by decide⟩

/-- C6 (amended): `get_value_from_aliases` is total, never returns
null/None; it returns the empty string whenever neither the key itself, nor
any configured alias of it, nor any canonical key listing it as an alias is
present with a non-null value; and when such a name is present it returns
one of the record's non-null values (which may itself be the empty
string). -/
theorem C6_resolution_total_default (data : List (String × JVal)) (key : String) :
    getValueFromAliases data key ≠ JVal.null ∧
    (specMatchedB data key = false → getValueFromAliases data key = JVal.str "") ∧
    (specMatchedB data key = true →
      ∃ k v, lookupE data k = some v ∧ v ≠ JVal.null ∧
        getValueFromAliases data key = v) := by
  refine ⟨?_, ?_, ?_⟩
  · obtain ⟨v, hv, hcase⟩ | ⟨hv, -, -, -⟩ := getValueFromAliases_cases data key
    · rw [hv]
      rcases hcase with hd | ha | hr
      · exact (directHit_spec hd).2
      · obtain ⟨a, -, had⟩ := aliasTableHit_some ha
        exact (directHit_spec had).2
      · obtain ⟨e, -, -, hed⟩ := reverseHit_some hr
        exact (directHit_spec hed).2
    · rw [hv]
      intro hcontra; cases hcontra
  · intro hfalse
    obtain ⟨h1, h2, h3⟩ := (specMatchedB_eq_false_iff data key).mp hfalse
    obtain ⟨v, hv, hcase⟩ | ⟨hv, -, -, -⟩ := getValueFromAliases_cases data key
    · rcases hcase with hd | ha | hr
      · rw [h1] at hd; cases hd
      · rw [h2] at ha; cases ha
      · rw [h3] at hr; cases hr
    · exact hv
  · intro htrue
    obtain ⟨v, hv, hcase⟩ | ⟨hv, h1, h2, h3⟩ := getValueFromAliases_cases data key
    · rcases hcase with hd | ha | hr
      · obtain ⟨hl, hn⟩ := directHit_spec hd
        exact ⟨key, v, hl, hn, hv⟩
      · obtain ⟨a, -, had⟩ := aliasTableHit_some ha
        obtain ⟨hl, hn⟩ := directHit_spec had
        exact ⟨a, v, hl, hn, hv⟩
      · obtain ⟨e, -, -, hed⟩ := reverseHit_some hr
        obtain ⟨hl, hn⟩ := directHit_spec hed
        exact ⟨e.1, v, hl, hn, hv⟩
    · have := (specMatchedB_eq_false_iff data key).mpr ⟨h1, h2, h3⟩
      rw [htrue] at this; cases this

/-- Witness for the amended C6 at a concrete record that resolves "価格"
through the alias "金額". -/
theorem C6_resolution_total_default_witness :
    getValueFromAliases [("金額", JVal.str "2000万円")] "価格" ≠ JVal.null :=
  (C6_resolution_total_default [("金額", JVal.str "2000万円")] "価格").1

/-! ## Lemmas about the reins reconciliation pass -/

theorem reinsInv_init (h : ReinsHistory) : ReinsInv (reinsInit h) := by
  refine ⟨?_, ?_, ?_, rfl⟩ <;> intro x <;> simp [reinsInit, List.mem_dedup]

theorem reinsInv_classify (s : ReinsPass) (pn cd ud : String) (hInv : ReinsInv s) :
    ReinsInv (reinsObserveClassify s pn cd ud) := by
  obtain ⟨h1, h2, h3, h4⟩ := hInv
  unfold reinsObserveClassify
  by_cases hp : pn ∈ s.pids
  · rw [if_pos hp]
    by_cases hc : cd ≠ ((lookupE s.pinfo pn).getD ("", "")).1 ∨
        ud ≠ ((lookupE s.pinfo pn).getD ("", "")).2
    · rw [if_pos hc]
      exact ⟨fun x => Iff.rfl, h2, fun x => Iff.rfl, rfl⟩
    · rw [if_neg hc]
      exact ⟨h1, h2, h3, h4⟩
  · rw [if_neg hp]
    exact ⟨h1, h2, fun x => Iff.rfl, rfl⟩

theorem reinsInv_resurrect (s1 : ReinsPass) (pn cd ud : String) (hInv : ReinsInv s1) :
    ReinsInv (reinsObserveResurrect s1 pn cd ud) := by
  obtain ⟨h1, h2, h3, h4⟩ := hInv
  unfold reinsObserveResurrect
  by_cases hd : pn ∈ s1.dids
  · rw [if_pos hd]
    exact ⟨h1, fun x => Iff.rfl, fun x => Iff.rfl, rfl⟩
  · rw [if_neg hd]
    exact ⟨h1, h2, h3, h4⟩

theorem reinsInv_observe (s : ReinsPass) (pn cd ud : String) (hInv : ReinsInv s) :
    ReinsInv (reinsObserve s pn cd ud) := by
  unfold reinsObserve
  by_cases h0 : pn = ""
  · rwa [if_pos h0]
  · rw [if_neg h0]
    exact reinsInv_resurrect _ pn cd ud (reinsInv_classify s pn cd ud hInv)

theorem reinsInv_fold (obs : List (String × String × String)) (s : ReinsPass)
    (hInv : ReinsInv s) :
    ReinsInv (obs.foldl (fun s o => reinsObserve s o.1 o.2.1 o.2.2) s) := by
  induction obs generalizing s with
  | nil => exact hInv
  | cons o rest ih =>
    rw [List.foldl_cons]
    exact ih _ (reinsInv_observe s o.1 o.2.1 o.2.2 hInv)

theorem classify_dids_eq (s : ReinsPass) (pn cd ud : String) :
    (reinsObserveClassify s pn cd ud).dids = s.dids := by
  unfold reinsObserveClassify
  by_cases hp : pn ∈ s.pids
  · rw [if_pos hp]
    by_cases hc : cd ≠ ((lookupE s.pinfo pn).getD ("", "")).1 ∨
        ud ≠ ((lookupE s.pinfo pn).getD ("", "")).2
    · rw [if_pos hc]
      rfl
    · rw [if_neg hc]
  · rw [if_neg hp]
    rfl

theorem classify_uids_mono (s : ReinsPass) (pn cd ud x : String) (hx : x ∈ s.uids) :
    x ∈ (reinsObserveClassify s pn cd ud).uids := by
  unfold reinsObserveClassify
  by_cases hp : pn ∈ s.pids
  · rw [if_pos hp]
    by_cases hc : cd ≠ ((lookupE s.pinfo pn).getD ("", "")).1 ∨
        ud ≠ ((lookupE s.pinfo pn).getD ("", "")).2
    · rw [if_pos hc]
      show x ∈ insertS s.uids pn
      rw [mem_insertS]
      exact Or.inl hx
    · rwa [if_neg hc]
  · rw [if_neg hp]
    show x ∈ insertS s.uids pn
    rw [mem_insertS]
    exact Or.inl hx

theorem observe_uids_mono (s : ReinsPass) (pn cd ud x : String) (hx : x ∈ s.uids) :
    x ∈ (reinsObserve s pn cd ud).uids := by
  unfold reinsObserve
  by_cases h0 : pn = ""
  · rwa [if_pos h0]
  · rw [if_neg h0]
    have h1 : x ∈ (reinsObserveClassify s pn cd ud).uids :=
      classify_uids_mono s pn cd ud x hx
    unfold reinsObserveResurrect
    by_cases hd : pn ∈ (reinsObserveClassify s pn cd ud).dids
    · rw [if_pos hd]
      show x ∈ insertS _ pn
      rw [mem_insertS]
      exact Or.inl h1
    · rwa [if_neg hd]

theorem resurrect_dids_sub (s1 : ReinsPass) (pn cd ud x : String)
    (hx : x ∈ (reinsObserveResurrect s1 pn cd ud).dids) : x ∈ s1.dids := by
  unfold reinsObserveResurrect at hx
  by_cases hd : pn ∈ s1.dids
  · rw [if_pos hd] at hx
    exact ((mem_removeS _ _ _).mp hx).1
  · rwa [if_neg hd] at hx

theorem observe_dids_sub (s : ReinsPass) (pn cd ud x : String)
    (hx : x ∈ (reinsObserve s pn cd ud).dids) : x ∈ s.dids := by
  unfold reinsObserve at hx
  by_cases h0 : pn = ""
  · rwa [if_pos h0] at hx
  · rw [if_neg h0] at hx
    have := resurrect_dids_sub _ pn cd ud x hx
    rwa [classify_dids_eq] at this

theorem observe_dids_other (s : ReinsPass) (pn cd ud x : String) (hne : x ≠ pn) :
    x ∈ (reinsObserve s pn cd ud).dids ↔ x ∈ s.dids := by
  unfold reinsObserve
  by_cases h0 : pn = ""
  · rw [if_pos h0]
  · rw [if_neg h0]
    unfold reinsObserveResurrect
    by_cases hd : pn ∈ (reinsObserveClassify s pn cd ud).dids
    · rw [if_pos hd]
      show x ∈ removeS (reinsObserveClassify s pn cd ud).dids pn ↔ _
      rw [mem_removeS, classify_dids_eq]
      exact ⟨fun h => h.1, fun h => ⟨h, hne⟩⟩
    · rw [if_neg hd, classify_dids_eq]

theorem observe_self_not_dids (s : ReinsPass) (pn cd ud : String) (h0 : pn ≠ "") :
    pn ∉ (reinsObserve s pn cd ud).dids := by
  unfold reinsObserve
  rw [if_neg h0]
  unfold reinsObserveResurrect
  by_cases hd : pn ∈ (reinsObserveClassify s pn cd ud).dids
  · rw [if_pos hd]
    exact not_mem_removeS_self _ _
  · rw [if_neg hd]
    exact hd

theorem observe_self_uids (s : ReinsPass) (pn cd ud : String) (h0 : pn ≠ "")
    (hd : pn ∈ s.dids) : pn ∈ (reinsObserve s pn cd ud).uids := by
  unfold reinsObserve
  rw [if_neg h0]
  unfold reinsObserveResurrect
  have hd1 : pn ∈ (reinsObserveClassify s pn cd ud).dids := by
    rw [classify_dids_eq]
    exact hd
  rw [if_pos hd1]
  exact self_mem_insertS _ _

theorem fold_dids_sub (obs : List (String × String × String)) (s : ReinsPass) (x : String)
    (hx : x ∈ (obs.foldl (fun s o => reinsObserve s o.1 o.2.1 o.2.2) s).dids) :
    x ∈ s.dids := by
  induction obs generalizing s with
  | nil => exact hx
  | cons o rest ih =>
    rw [List.foldl_cons] at hx
    exact observe_dids_sub s o.1 o.2.1 o.2.2 x (ih _ hx)

theorem fold_uids_mono (obs : List (String × String × String)) (s : ReinsPass) (x : String)
    (hx : x ∈ s.uids) :
    x ∈ (obs.foldl (fun s o => reinsObserve s o.1 o.2.1 o.2.2) s).uids := by
  induction obs generalizing s with
  | nil => exact hx
  | cons o rest ih =>
    rw [List.foldl_cons]
    exact ih _ (observe_uids_mono s o.1 o.2.1 o.2.2 x hx)

theorem fold_resurrect (obs : List (String × String × String)) (s : ReinsPass)
    (P cd ud : String) (h0 : P ≠ "") (hobs : (P, cd, ud) ∈ obs) (hd : P ∈ s.dids) :
    P ∉ (obs.foldl (fun s o => reinsObserve s o.1 o.2.1 o.2.2) s).dids ∧
    P ∈ (obs.foldl (fun s o => reinsObserve s o.1 o.2.1 o.2.2) s).uids := by
  induction obs generalizing s with
  | nil => cases hobs
  | cons o rest ih =>
    rw [List.foldl_cons]
    by_cases hP : o.1 = P
    · have hnd : P ∉ (reinsObserve s o.1 o.2.1 o.2.2).dids := by
        rw [hP]
        exact observe_self_not_dids s P o.2.1 o.2.2 h0
      have hu : P ∈ (reinsObserve s o.1 o.2.1 o.2.2).uids := by
        rw [hP]
        exact observe_self_uids s P o.2.1 o.2.2 h0 hd
      constructor
      · intro hcon
        exact hnd (fold_dids_sub rest _ P hcon)
      · exact fold_uids_mono rest _ P hu
    · have hd' : P ∈ (reinsObserve s o.1 o.2.1 o.2.2).dids :=
        (observe_dids_other s o.1 o.2.1 o.2.2 P (fun he => hP he.symm)).mpr hd
      have hobs' : (P, cd, ud) ∈ rest := by
        rcases List.mem_cons.mp hobs with heq | h
        · exact absurd (by rw [← heq]) hP
        · exact h
      exact ih _ hobs' hd'

theorem sweep_foldl_id (l : List String) (s : ReinsPass) (h : ∀ x ∈ l, x ∈ s.pids) :
    l.foldl reinsSweepStep s = s := by
  induction l with
  | nil => rfl
  | cons a rest ih =>
    rw [List.foldl_cons]
    have ha : reinsSweepStep s a = s := by
      unfold reinsSweepStep
      rw [if_pos (h a (List.mem_cons_self a rest))]
    rw [ha]
    exact ih (fun x hx => h x (List.mem_cons_of_mem a hx))

theorem reinsSweep_id (s : ReinsPass) (h : ∀ x, x ∈ s.histProcessed → x ∈ s.pids) :
    reinsSweep s = s := by
  unfold reinsSweep
  exact sweep_foldl_id _ s (fun x hx => h x (List.mem_dedup.mp hx))

/-! ## Lemmas about the mugen_estate / jpm histories -/

theorem lookupE_isSome_of_mem {α : Type} {l : List (String × α)} {e : String × α}
    (he : e ∈ l) : (lookupE l e.1).isSome := by
  induction l with
  | nil => cases he
  | cons f rest ih =>
    obtain ⟨k, v⟩ := f
    by_cases hf : k = e.1
    · simp [lookupE, hf]
    · rcases List.mem_cons.mp he with heq | he'
      · rw [heq] at hf
        exact absurd rfl hf
      · simp only [lookupE, if_neg hf]
        exact ih he'

theorem setE_mem {α : Type} {l : List (String × α)} {k : String} {v : α}
    {e : String × α} (he : e ∈ setE l k v) : e ∈ l ∨ e.1 = k := by
  induction l with
  | nil =>
    simp only [setE, List.mem_singleton] at he
    rw [he]
    exact Or.inr rfl
  | cons f rest ih =>
    obtain ⟨k', w⟩ := f
    by_cases hf : k' = k
    · simp only [setE, if_pos hf] at he
      rcases List.mem_cons.mp he with rfl | he'
      · exact Or.inr hf
      · exact Or.inl (List.mem_cons_of_mem _ he')
    · simp only [setE, if_neg hf] at he
      rcases List.mem_cons.mp he with rfl | he'
      · exact Or.inl (List.mem_cons_self _ _)
      · rcases ih he' with h | h
        · exact Or.inl (List.mem_cons_of_mem _ h)
        · exact Or.inr h

theorem mem_eraseE {α : Type} {l : List (String × α)} {k : String} {e : String × α} :
    e ∈ eraseE l k ↔ e ∈ l ∧ e.1 ≠ k := by
  simp [eraseE]

theorem disjointKeys_iff {α β : Type} (l1 : List (String × α)) (l2 : List (String × β)) :
    disjointKeys l1 l2 = true ↔ ∀ e ∈ l1, lookupE l2 e.1 = none := by
  unfold disjointKeys
  rw [List.all_eq_true]
  constructor
  · intro h e he
    have := h e he
    rwa [Option.isNone_iff_eq_none] at this
  · intro h e he
    rw [Option.isNone_iff_eq_none]
    exact h e he

theorem mugenCurrentIds_isSome_aux (now P : String) :
    ∀ (cur : List MugenListing) (acc : List (String × MugenPropInfo)),
      (P ∈ listingIds cur ∨ (lookupE acc P).isSome) →
      (lookupE (cur.foldl (fun acc p =>
          match p.propertyId with
          | some pid => setE acc pid ⟨p.propertyName, now, p.price, p.roomNumber, none⟩
          | none => acc) acc) P).isSome := by
  intro cur
  induction cur with
  | nil =>
    intro acc h
    rcases h with h | h
    · simp [listingIds] at h
    · exact h
  | cons p rest ih =>
    intro acc h
    rw [List.foldl_cons]
    cases hpid : p.propertyId with
    | none =>
      simp only [hpid]
      apply ih
      rcases h with h | h
      · left
        simpa [listingIds, hpid] using h
      · right
        exact h
    | some pid =>
      simp only [hpid]
      apply ih
      rcases h with h | h
      · have : P = pid ∨ P ∈ listingIds rest := by
          simpa [listingIds, hpid] using h
        rcases this with rfl | h'
        · right
          rw [lookupE_setE_self]
          rfl
        · left
          exact h'
      · right
        exact lookupE_setE_isSome acc pid P _ h

theorem mugenCurrentIds_isSome (cur : List MugenListing) (now P : String)
    (h : P ∈ listingIds cur) : (lookupE (mugenCurrentIds cur now) P).isSome := by
  unfold mugenCurrentIds
  exact mugenCurrentIds_isSome_aux now P cur [] (Or.inl h)

theorem mugenCurrentIds_key_mem_aux (now : String) :
    ∀ (cur : List MugenListing) (acc : List (String × MugenPropInfo))
      (e : String × MugenPropInfo),
      e ∈ cur.foldl (fun acc p =>
          match p.propertyId with
          | some pid => setE acc pid ⟨p.propertyName, now, p.price, p.roomNumber, none⟩
          | none => acc) acc →
      e ∈ acc ∨ e.1 ∈ listingIds cur := by
  intro cur
  induction cur with
  | nil =>
    intro acc e he
    exact Or.inl he
  | cons p rest ih =>
    intro acc e he
    rw [List.foldl_cons] at he
    cases hpid : p.propertyId with
    | none =>
      rw [hpid] at he
      rcases ih acc e he with h | h
      · exact Or.inl h
      · right
        simpa [listingIds, hpid] using h
    | some pid =>
      rw [hpid] at he
      rcases ih _ e he with h | h
      · rcases setE_mem h with h' | h'
        · exact Or.inl h'
        · right
          simp [listingIds, hpid, h']
      · right
        simp [listingIds, hpid]
        right
        simpa [listingIds] using h

theorem mugenCurrentIds_key_mem (cur : List MugenListing) (now : String)
    (e : String × MugenPropInfo) (he : e ∈ mugenCurrentIds cur now) :
    e.1 ∈ listingIds cur := by
  unfold mugenCurrentIds at he
  rcases mugenCurrentIds_key_mem_aux now cur [] e he with h | h
  · cases h
  · exact h

theorem mugenNewDeleted_preserves (now : String)
    (currentIds : List (String × MugenPropInfo)) (P : String) :
    ∀ (act base : List (String × MugenPropInfo)),
      (lookupE base P).isSome →
      (lookupE (act.foldl (fun acc e =>
          if (lookupE currentIds e.1).isSome then acc
          else setE acc e.1 { e.2 with deletedAt := some now }) base) P).isSome := by
  intro act
  induction act with
  | nil => exact fun base h => h
  | cons e rest ih =>
    intro base h
    rw [List.foldl_cons]
    by_cases hc : (lookupE currentIds e.1).isSome
    · rw [if_pos hc]
      exact ih base h
    · rw [if_neg hc]
      exact ih _ (lookupE_setE_isSome base e.1 P _ h)

theorem mugenNewDeleted_none (now : String)
    (currentIds : List (String × MugenPropInfo)) (P : String)
    (hP : (lookupE currentIds P).isSome) :
    ∀ (act base : List (String × MugenPropInfo)),
      lookupE base P = none →
      lookupE (act.foldl (fun acc e =>
          if (lookupE currentIds e.1).isSome then acc
          else setE acc e.1 { e.2 with deletedAt := some now }) base) P = none := by
  intro act
  induction act with
  | nil => exact fun base h => h
  | cons e rest ih =>
    intro base h
    rw [List.foldl_cons]
    by_cases hc : (lookupE currentIds e.1).isSome
    · rw [if_pos hc]
      exact ih base h
    · rw [if_neg hc]
      apply ih
      have hne : e.1 ≠ P := by
        intro heq
        rw [heq] at hc
        exact hc hP
      rw [lookupE_setE_ne base e.1 P _ hne]
      exact h

/-- Supporting fact for C1: the end-of-pass sweep of `ReinsScraper.scrape`
(lines 585-597) never fires.  Its guard compares
`set(self.property_history["processed"])` with `processed_ids`, but every
mutation of `processed_ids` during the pass is mirrored into
`self.property_history["processed"]` before the next save, and observed ids
are never added to `processed_ids`, so the two agree up to membership at the
sweep and the deletion branch is unreachable (which is also why its
`processed_ids.remove(old_id)` never raises `KeyError`). -/
theorem reins_sweep_never_fires (h : ReinsHistory) (obs : List (String × String × String)) :
    reinsPass h obs =
      obs.foldl (fun s o => reinsObserve s o.1 o.2.1 o.2.2) (reinsInit h) := by
  unfold reinsPass
  obtain ⟨i1, -, -, -⟩ := reinsInv_fold obs (reinsInit h) (reinsInv_init h)
  exact reinsSweep_id _ (fun x hx => (i1 x).mp hx)

/-! ## Claim C1 -/

/-- C1: the deletion invariant fails in `ReinsScraper.scrape`.  The
end-of-pass sweep is a no-op on every pass (first conjunct), and concretely:
with prior history `processed = ["A"]` and a pass observing only the new id
"B", the persisted post-pass history still lists "A" as processed, has an
empty deleted set, and keeps A's `property_info` entry — the claim requires
"A" to move to `deleted`, leave `processed`, and lose its `property_info`
entry. -/
theorem C1_reins_deletion_sweep_dead :
    (∀ (h : ReinsHistory) (obs : List (String × String × String)),
      reinsPass h obs =
        obs.foldl (fun s o => reinsObserve s o.1 o.2.1 o.2.2) (reinsInit h)) ∧
    (reinsPass ⟨["A"], [], [], [("A", ("d0", "d0"))]⟩ [("B", "", "")]).file.processed = ["A"] ∧
    (reinsPass ⟨["A"], [], [], [("A", ("d0", "d0"))]⟩ [("B", "", "")]).file.deleted = [] ∧
    (reinsPass ⟨["A"], [], [], [("A", ("d0", "d0"))]⟩ [("B", "", "")]).file.updated = ["B"] ∧
    lookupE (reinsPass ⟨["A"], [], [], [("A", ("d0", "d0"))]⟩
        [("B", "", "")]).file.property_info "A" = some ("d0", "d0") :=
  ⟨reins_sweep_never_fires, by decide, by decide, by decide, by decide⟩

/-! ## Claim C2 -/

/-- C2: the new-to-active invariant fails in `ReinsScraper.scrape`.  From an
empty history, observing the new id "B" (markers "d1"/"d2") leaves the
persisted `processed` list empty — the new id is recorded only in `updated`
and `property_info` (and is absent from `deleted`), while the claim requires
"B" to also be a member of the processed/active set. -/
theorem C2_reins_new_property_not_in_processed :
    (reinsPass ⟨[], [], [], []⟩ [("B", "d1", "d2")]).file.processed = [] ∧
    (reinsPass ⟨[], [], [], []⟩ [("B", "d1", "d2")]).file.updated = ["B"] ∧
    (reinsPass ⟨[], [], [], []⟩ [("B", "d1", "d2")]).file.deleted = [] ∧
    lookupE (reinsPass ⟨[], [], [], []⟩ [("B", "d1", "d2")]).file.property_info "B"
      = some ("d1", "d2") := by
  decide

/-! ## Claim C3 -/

/-- C3 counterexample: in `MugenEstateScraper.update_property_history` a
previously deleted property that is observed again is put back into
`active_properties` but its `deleted_properties` entry is retained, so after
the pass it is in both sets — the claim requires it not to be in the deleted
set. -/
theorem C3_counterexample :
    (lookupE (mugenUpdatePropertyHistory
        ⟨[], [("P", ⟨"物件P", "t0", 100, "101", some "t0"⟩)], []⟩
        [⟨some "P", "物件P", 100, "101"⟩] "t1").active "P").isSome = true ∧
    lookupE (mugenUpdatePropertyHistory
        ⟨[], [("P", ⟨"物件P", "t0", 100, "101", some "t0"⟩)], []⟩
        [⟨some "P", "物件P", 100, "101"⟩] "t1").deleted "P"
      = some ⟨"物件P", "t0", 100, "101", some "t0"⟩ := by
  decide

/-- C3 (amended): resurrection holds in full for the reins pass — an id that
was in `deleted` at pass start and is observed (with a non-empty property
number) leaves the persisted deleted set and enters the persisted updated
set; in `MugenEstateScraper.update_property_history` an observed id always
ends in `active_properties`, but a previously deleted id additionally keeps
its `deleted_properties` entry. -/
theorem C3_resurrection (h : ReinsHistory) (obs : List (String × String × String))
    (P cd ud : String) (h0 : P ≠ "") (hobs : (P, cd, ud) ∈ obs) (hdel : P ∈ h.deleted) :
    (P ∉ (reinsPass h obs).file.deleted ∧ P ∈ (reinsPass h obs).file.updated) ∧
    (∀ (mh : MugenHistory) (cur : List MugenListing) (now : String),
      P ∈ listingIds cur →
      (lookupE (mugenUpdatePropertyHistory mh cur now).active P).isSome = true ∧
      ((lookupE mh.deleted P).isSome = true →
        (lookupE (mugenUpdatePropertyHistory mh cur now).deleted P).isSome = true)) := by
  constructor
  · obtain ⟨i1, i2, i3, i4⟩ := reinsInv_fold obs (reinsInit h) (reinsInv_init h)
    have hdInit : P ∈ (reinsInit h).dids := by
      show P ∈ h.deleted.dedup
      exact List.mem_dedup.mpr hdel
    obtain ⟨hnd, hu⟩ := fold_resurrect obs (reinsInit h) P cd ud h0 hobs hdInit
    have hpass : reinsPass h obs =
        obs.foldl (fun s o => reinsObserve s o.1 o.2.1 o.2.2) (reinsInit h) :=
      reins_sweep_never_fires h obs
    constructor
    · rw [hpass, i4]
      show P ∉ (obs.foldl (fun s o => reinsObserve s o.1 o.2.1 o.2.2)
        (reinsInit h)).histDeleted
      intro hcon
      exact hnd ((i2 P).mp hcon)
    · rw [hpass, i4]
      show P ∈ (obs.foldl (fun s o => reinsObserve s o.1 o.2.1 o.2.2)
        (reinsInit h)).histUpdated
      exact (i3 P).mpr hu
  · intro mh cur now hP
    constructor
    · show (lookupE (mugenCurrentIds cur now) P).isSome = true
      exact mugenCurrentIds_isSome cur now P hP
    · intro hdel'
      exact mugenNewDeleted_preserves now (mugenCurrentIds cur now) P mh.active
        mh.deleted hdel'

/-- Witness for C3 at concrete inputs: reins history with `deleted = ["P"]`
and a pass observing "P"; mugen history with "P" archived in
`deleted_properties` and a current listing carrying "P". -/
theorem C3_resurrection_witness :
    ("P" ∉ (reinsPass ⟨[], ["P"], [], []⟩ [("P", "", "")]).file.deleted ∧
     "P" ∈ (reinsPass ⟨[], ["P"], [], []⟩ [("P", "", "")]).file.updated) ∧
    (lookupE (mugenUpdatePropertyHistory
        ⟨[], [("P", ⟨"物件P", "t0", 100, "101", some "t0"⟩)], []⟩
        [⟨some "P", "物件P", 100, "101"⟩] "t1").active "P").isSome = true ∧
    (lookupE (mugenUpdatePropertyHistory
        ⟨[], [("P", ⟨"物件P", "t0", 100, "101", some "t0"⟩)], []⟩
        [⟨some "P", "物件P", 100, "101"⟩] "t1").deleted "P").isSome = true := by
  obtain ⟨hre, hmu⟩ := C3_resurrection ⟨[], ["P"], [], []⟩ [("P", "", "")] "P" "" ""
    (by decide) (by simp) (by decide)
  obtain ⟨hact, hdel⟩ := hmu ⟨[], [("P", ⟨"物件P", "t0", 100, "101", some "t0"⟩)], []⟩
    [⟨some "P", "物件P", 100, "101"⟩] "t1" (by decide)
  exact ⟨hre, hact, hdel (by decide)⟩

/-! ## Claim C4 -/

/-- C4 counterexample: `JpmScraper.mark_property_as_processed` on an id that
sits in `deleted_properties` puts it into `active_properties` without
removing the deleted entry, so afterwards the active and deleted sets
intersect — the disjointness-at-rest invariant fails after this complete
history-update operation. -/
theorem C4_counterexample :
    (lookupE (jpmMarkPropertyAsProcessed
        ⟨[], [("P", ⟨"物件P", "t0", 0, "", some "t0"⟩)], []⟩
        "P" "物件P" "t1").active "P").isSome = true ∧
    (lookupE (jpmMarkPropertyAsProcessed
        ⟨[], [("P", ⟨"物件P", "t0", 0, "", some "t0"⟩)], []⟩
        "P" "物件P" "t1").deleted "P").isSome = true ∧
    disjointKeys (jpmMarkPropertyAsProcessed
        ⟨[], [("P", ⟨"物件P", "t0", 0, "", some "t0"⟩)], []⟩
        "P" "物件P" "t1").active
      (jpmMarkPropertyAsProcessed
        ⟨[], [("P", ⟨"物件P", "t0", 0, "", some "t0"⟩)], []⟩
        "P" "物件P" "t1").deleted = false := by
  decide

/-- C4 (amended): disjointness of active and deleted is preserved by
`mark_property_as_deleted`, and by `mark_property_as_processed` only when the
processed id has no `deleted_properties` entry; likewise
`MugenEstateScraper.update_property_history` leaves the sets disjoint
provided no currently observed id has a `deleted_properties` entry — a
resurrected id ends up in both sets. -/
theorem C4_disjointness_preservation :
    (∀ (h : JpmHistory) (pid name now : String),
      disjointKeys h.active h.deleted = true →
      lookupE h.deleted pid = none →
      disjointKeys (jpmMarkPropertyAsProcessed h pid name now).active
        (jpmMarkPropertyAsProcessed h pid name now).deleted = true) ∧
    (∀ (h : JpmHistory) (pid now : String),
      disjointKeys h.active h.deleted = true →
      disjointKeys (jpmMarkPropertyAsDeleted h pid now).active
        (jpmMarkPropertyAsDeleted h pid now).deleted = true) ∧
    (∀ (h : MugenHistory) (cur : List MugenListing) (now : String),
      (∀ Q ∈ listingIds cur, lookupE h.deleted Q = none) →
      disjointKeys (mugenUpdatePropertyHistory h cur now).active
        (mugenUpdatePropertyHistory h cur now).deleted = true) := by
  refine ⟨?_, ?_, ?_⟩
  · intro h pid name now hdisj hdel
    rw [disjointKeys_iff] at hdisj ⊢
    intro e he
    simp only [jpmMarkPropertyAsProcessed] at he ⊢
    rcases setE_mem he with h' | h'
    · exact hdisj e h'
    · rw [h']
      exact hdel
  · intro h pid now hdisj
    rw [disjointKeys_iff] at hdisj ⊢
    intro e he
    cases hl : lookupE h.active pid with
    | none =>
      simp only [jpmMarkPropertyAsDeleted, hl] at he ⊢
      exact hdisj e he
    | some inf =>
      simp only [jpmMarkPropertyAsDeleted, hl] at he ⊢
      obtain ⟨hmem, hne⟩ := mem_eraseE.mp he
      rw [lookupE_setE_ne _ _ _ _ (fun hh => hne hh.symm)]
      exact hdisj e hmem
  · intro h cur now hres
    rw [disjointKeys_iff]
    intro e he
    simp only [mugenUpdatePropertyHistory] at he ⊢
    have hkey : e.1 ∈ listingIds cur := mugenCurrentIds_key_mem cur now e he
    have hbase : lookupE h.deleted e.1 = none := hres e.1 hkey
    have hsome : (lookupE (mugenCurrentIds cur now) e.1).isSome :=
      lookupE_isSome_of_mem he
    exact mugenNewDeleted_none now (mugenCurrentIds cur now) e.1 hsome h.active
      h.deleted hbase

/-- Witness for the amended C4 at concrete small histories. -/
theorem C4_disjointness_preservation_witness :
    disjointKeys (jpmMarkPropertyAsProcessed
        ⟨[("A", ⟨"物件A", "t0", 0, "", none⟩)], [("D", ⟨"物件D", "t0", 0, "", some "t0"⟩)], []⟩
        "B" "物件B" "t1").active
      (jpmMarkPropertyAsProcessed
        ⟨[("A", ⟨"物件A", "t0", 0, "", none⟩)], [("D", ⟨"物件D", "t0", 0, "", some "t0"⟩)], []⟩
        "B" "物件B" "t1").deleted = true ∧
    disjointKeys (jpmMarkPropertyAsDeleted
        ⟨[("A", ⟨"物件A", "t0", 0, "", none⟩)], [("D", ⟨"物件D", "t0", 0, "", some "t0"⟩)], []⟩
        "A" "t1").active
      (jpmMarkPropertyAsDeleted
        ⟨[("A", ⟨"物件A", "t0", 0, "", none⟩)], [("D", ⟨"物件D", "t0", 0, "", some "t0"⟩)], []⟩
        "A" "t1").deleted = true ∧
    disjointKeys (mugenUpdatePropertyHistory
        ⟨[("A", ⟨"物件A", "t0", 0, "", none⟩)], [("D", ⟨"物件D", "t0", 0, "", some "t0"⟩)], []⟩
        [⟨some "A", "物件A", 0, ""⟩] "t1").active
      (mugenUpdatePropertyHistory
        ⟨[("A", ⟨"物件A", "t0", 0, "", none⟩)], [("D", ⟨"物件D", "t0", 0, "", some "t0"⟩)], []⟩
        [⟨some "A", "物件A", 0, ""⟩] "t1").deleted = true := by
  obtain ⟨hp, hd, hm⟩ := C4_disjointness_preservation
  refine ⟨?_, ?_, ?_⟩
  · exact hp ⟨[("A", ⟨"物件A", "t0", 0, "", none⟩)],
      [("D", ⟨"物件D", "t0", 0, "", some "t0"⟩)], []⟩ "B" "物件B" "t1"
      (by decide) (by decide)
  · exact hd ⟨[("A", ⟨"物件A", "t0", 0, "", none⟩)],
      [("D", ⟨"物件D", "t0", 0, "", some "t0"⟩)], []⟩ "A" "t1" (by decide)
  · exact hm ⟨[("A", ⟨"物件A", "t0", 0, "", none⟩)],
      [("D", ⟨"物件D", "t0", 0, "", some "t0"⟩)], []⟩
      [⟨some "A", "物件A", 0, ""⟩] "t1" (by decide)

/-! ## Claim C7 -/

/-- C7 counterexample: on an unparseable log file, `json.load` raises before
the `isinstance` check and the bare `except` re-raises after logging
(utils.py lines 38-40), so `save_updated_properties` raises instead of
treating the corrupt log as the empty list and persisting the path. -/
theorem C7_counterexample :
    saveUpdatedProperties LogFile.invalidJson "/data/reins/x.json" =
      Except.error "json decode error" := rfl

/-- C7 (amended): for a log file that parses to a list, the path is appended
only when absent and the full list is written back with flush and fsync;
afterwards the log contains the path (exactly once provided it appeared at
most once before), retains every previous entry, and a second call with the
same path writes the same log.  An absent or parses-to-non-list file is
treated as the empty list; an unparseable file makes the call raise. -/
theorem C7_record_semantics (path : String) (l : List String) :
    (∃ r : SavedLog,
      saveUpdatedProperties (LogFile.entries l) path = Except.ok r ∧
      r.flushed = true ∧ r.fsynced = true ∧
      path ∈ r.entries ∧ (∀ q ∈ l, q ∈ r.entries) ∧
      (l.count path ≤ 1 → r.entries.count path = 1) ∧
      saveUpdatedProperties (LogFile.entries r.entries) path = Except.ok r) ∧
    saveUpdatedProperties LogFile.absent path =
      saveUpdatedProperties (LogFile.entries []) path ∧
    saveUpdatedProperties LogFile.notAList path =
      saveUpdatedProperties (LogFile.entries []) path ∧
    (∀ p2 : String, saveUpdatedProperties LogFile.invalidJson p2 =
      Except.error "json decode error") := by
  have hmem : path ∈ (if path ∈ l then l else l ++ [path]) := by
    by_cases hp : path ∈ l
    · rw [if_pos hp]; exact hp
    · rw [if_neg hp]
      exact List.mem_append_right l (List.mem_singleton.mpr rfl)
  refine ⟨⟨⟨if path ∈ l then l else l ++ [path], true, true⟩, rfl, rfl, rfl,
    hmem, ?_, ?_, ?_⟩, rfl, rfl, fun p2 => rfl⟩
  · intro q hq
    by_cases hp : path ∈ l
    · rw [if_pos hp]; exact hq
    · rw [if_neg hp]
      exact List.mem_append_left _ hq
  · intro hc
    by_cases hp : path ∈ l
    · rw [if_pos hp]
      show l.count path = 1
      have h1 : 0 < l.count path := List.count_pos_iff.mpr hp
      omega
    · rw [if_neg hp]
      show (l ++ [path]).count path = 1
      rw [List.count_append]
      have h0 : l.count path = 0 := List.count_eq_zero.mpr hp
      simp [h0]
  · simp only [saveUpdatedProperties, loadLogEntries]
    rw [if_pos hmem]

/-- Witness for the amended C7 at a concrete log and path. -/
theorem C7_record_semantics_witness :
    ∃ r : SavedLog,
      saveUpdatedProperties (LogFile.entries ["/data/b.json"]) "/data/a.json" =
        Except.ok r ∧
      r.entries.count "/data/a.json" = 1 ∧ r.fsynced = true := by
  obtain ⟨⟨r, hok, -, hfs, -, -, hcount, -⟩, -, -, -⟩ :=
    C7_record_semantics "/data/a.json" ["/data/b.json"]
  exact ⟨r, hok, hcount (by decide), hfs⟩

/-! ## Claim C8 -/

/-- C8 counterexample: `FstageScraper._save_property_history` catches every
exception and returns `False` (fstage.py lines 655-658), so a failed history
write returns normally to the caller instead of raising, and the pass
continues. -/
theorem C8_counterexample :
    fstageSavePropertyHistory (Except.error "disk full") = Except.ok false := rfl

/-- C8 (amended): `MugenEstateScraper.save_property_history` propagates a
write failure to its caller (logs, then re-raises), while
`FstageScraper._save_property_history` swallows it and returns `False`
normally; on a successful write both return normally. -/
theorem C8_history_save_failure (e : String) :
    mugenSavePropertyHistory (Except.error e) = Except.error e ∧
    fstageSavePropertyHistory (Except.error e) = Except.ok false ∧
    mugenSavePropertyHistory (Except.ok ()) = Except.ok () ∧
    fstageSavePropertyHistory (Except.ok ()) = Except.ok true :=
  ⟨rfl, rfl, rfl, rfl⟩

/-! ## Claim C9 -/

/-- C9: the frame property fails in `ArchScraper`.  With a loaded history
whose `processed` list is `["A"]`, the first `update_history("B")` persists
`processed = ["B"]`: the in-memory `processed_ids` set starts empty
(arch.py line 27) instead of being seeded from the loaded history, and
`update_history` overwrites the persisted list with it (lines 44-47), so the
durable entry for "A" is lost rather than retained alongside "B". -/
theorem C9_arch_update_history_drops_prior :
    (archInit (some ⟨["A"], []⟩)).history_data.processed = ["A"] ∧
    (archUpdateHistory (archInit (some ⟨["A"], []⟩)) "B" false).file
      = some ⟨["B"], []⟩ ∧
    "A" ∉ (archUpdateHistory (archInit (some ⟨["A"], []⟩))
        "B" false).history_data.processed := by
  decide

/-! ## Claim C10 -/

/-- C10: `get_updated_property_paths` returns exactly the `abspath`s of the
files `{id}.json` under the data directory for the ids in the history's
`updated` list whose file exists (membership-level, since Python `set()`
iteration order is unspecified), and its result depends only on the
`updated` list — ids in `processed`, `deleted` or `property_info` never
contribute. -/
theorem C10_get_updated_property_paths (h : ReinsHistory) (dataDir : String)
    (exStr : String → Bool) (absPath : String → String) :
    (∀ p, p ∈ getUpdatedPropertyPaths h dataDir exStr absPath ↔
      ∃ pid ∈ h.updated, exStr (dataDir ++ "/" ++ pid ++ ".json") = true ∧
        p = absPath (dataDir ++ "/" ++ pid ++ ".json")) ∧
    (∀ (pr dl : List String) (pi : List (String × (String × String))),
      getUpdatedPropertyPaths ⟨pr, dl, h.updated, pi⟩ dataDir exStr absPath =
        getUpdatedPropertyPaths h dataDir exStr absPath) := by
  constructor
  · intro p
    unfold getUpdatedPropertyPaths
    rw [List.mem_filterMap]
    constructor
    · rintro ⟨pid, hpid, hf⟩
      by_cases he : exStr (dataDir ++ "/" ++ pid ++ ".json") = true
      · refine ⟨pid, List.mem_dedup.mp hpid, he, ?_⟩
        simp only [he, if_true] at hf
        exact (Option.some.inj hf).symm
      · rw [Bool.not_eq_true] at he
        simp [he] at hf
    · rintro ⟨pid, hpid, he, rfl⟩
      exact ⟨pid, List.mem_dedup.mpr hpid, by simp [he]⟩
  · intro pr dl pi
    rfl

/-- Witness for the amended C8 at a concrete write failure. -/
theorem C8_history_save_failure_witness :
    mugenSavePropertyHistory (Except.error "disk full") = Except.error "disk full" ∧
    fstageSavePropertyHistory (Except.error "disk full") = Except.ok false ∧
    mugenSavePropertyHistory (Except.ok ()) = Except.ok () ∧
    fstageSavePropertyHistory (Except.ok ()) = Except.ok true :=
  C8_history_save_failure "disk full"
